import Mathlib

/-!
Verification of the TalkToText repository's error-rate scoring component and
the Vosk transcription wrapper.

The repository's benchmark scripts delegate WER/MER/CER computation to an
external metrics library; the spec (§4.1 EditDistanceScorer) describes the
algorithm precisely: a dynamic-programming Levenshtein table with base cases
`dp[0][j] = j`, `dp[i][0] = i`, the match/substitution/deletion/insertion
recurrence, and a backtracking pass with the fixed tie-break order
match > substitution > deletion > insertion recovering the S/D/I/M breakdown.
We embed that component here, faithful to the spec's words, and prove the
spec's stated properties.  The Vosk wrapper `transcribe_vosk` is embedded
from `src/benchmarkings/vosk_transcribe.py`.
-/

namespace TalkToText

/-- Modelled from the spec: the score result record holding counts of
substitutions (S), deletions (D), insertions (I) and matches (M)
(the external metrics library's breakdown is not part of the repository's
own sources). -/
structure ScoreResult where
  substitutions : Nat
  deletions : Nat
  insertions : Nat
  «matches» : Nat
deriving DecidableEq, Repr

/-- Total edit-operation count S + D + I of a score result. -/
def totalOps (s : ScoreResult) : Nat :=
  s.substitutions + s.deletions + s.insertions

/-- Modelled from the spec: one row step of the Levenshtein cost table.
`prev` is row `i` of the table; this computes row `i+1` entrywise:
`dp[i+1][0] = i+1`, and `dp[i+1][j+1]` is `dp[i][j]` on a token match and
otherwise the minimum of substitution, deletion and insertion costs. -/
def dpRow {α : Type} [DecidableEq α] (R H : List α) (i : Nat)
    (prev : Nat → Nat) : Nat → Nat
  | 0 => i + 1
  | j + 1 =>
    if R[i]? = H[j]? then prev j
    else min (prev j + 1) (min (prev (j + 1) + 1) (dpRow R H i prev j + 1))

/-- Modelled from the spec: the dynamic-programming edit-distance table,
`dp R H i j` = minimum operations transforming the first `i` reference
tokens into the first `j` hypothesis tokens; base cases `dp[0][j] = j`
(all insertions) and `dp[i][0] = i` (all deletions). -/
def dp {α : Type} [DecidableEq α] (R H : List α) : Nat → Nat → Nat
  | 0 => fun j => j
  | i + 1 => dpRow R H i (dp R H i)

/-- Record a match during backtracking. -/
def addMatch (s : ScoreResult) : ScoreResult :=
  { s with «matches» := s.«matches» + 1 }

/-- Record a substitution during backtracking. -/
def addSubst (s : ScoreResult) : ScoreResult :=
  { s with substitutions := s.substitutions + 1 }

/-- Record a deletion during backtracking. -/
def addDel (s : ScoreResult) : ScoreResult :=
  { s with deletions := s.deletions + 1 }

/-- Record an insertion during backtracking. -/
def addIns (s : ScoreResult) : ScoreResult :=
  { s with insertions := s.insertions + 1 }

/-- Modelled from the spec: one row of the backtracking pass, written in the
same row-by-row shape as `dpRow`; `prevBt` is the backtracking result on row
`i`.  At cell `(i+1, j+1)` the fixed tie-break order prefers match (tokens
equal, diagonal chosen at cost 0), then substitution, then deletion, then
insertion. -/
def btRow {α : Type} [DecidableEq α] (R H : List α) (i : Nat)
    (prevBt : Nat → ScoreResult) : Nat → ScoreResult
  | 0 => ⟨0, i + 1, 0, 0⟩
  | j + 1 =>
    if R[i]? = H[j]? then addMatch (prevBt j)
    else if dp R H (i + 1) (j + 1) = dp R H i j + 1 then addSubst (prevBt j)
    else if dp R H (i + 1) (j + 1) = dp R H i (j + 1) + 1 then
      addDel (prevBt (j + 1))
    else addIns (btRow R H i prevBt j)

/-- Modelled from the spec: backtracking from `dp[i][j]` to `dp[0][0]`,
recovering the S/D/I/M breakdown.  At `(0, j)` the remaining `j` hypothesis
tokens are insertions; at `(i, 0)` the remaining `i` reference tokens are
deletions. -/
def backtrack {α : Type} [DecidableEq α] (R H : List α) :
    Nat → Nat → ScoreResult
  | 0 => fun j => ⟨0, 0, j, 0⟩
  | i + 1 => btRow R H i (backtrack R H i)

/-- Modelled from the spec: the sole public operation of the
EditDistanceScorer, `score(reference_tokens, hypothesis_tokens)`, computing
the minimum-edit-operations alignment breakdown.  Generic over the token
type (words for WER/MER, characters for CER). -/
def score {α : Type} [DecidableEq α] (R H : List α) : ScoreResult :=
  backtrack R H R.length H.length

/-- Modelled from the spec: `WER = (S + D + I) / n`, with the explicit
boundary policy for an empty reference: WER is `m` (all insertions) when
`n = 0` and `m > 0`, and `0` when both sequences are empty. -/
def wer {α : Type} [DecidableEq α] (R H : List α) : ℚ :=
  if R.length = 0 then (if H.length = 0 then 0 else (H.length : ℚ))
  else (totalOps (score R H) : ℚ) / (R.length : ℚ)

/-- Modelled from the spec: `MER = (S + D + I) / (S + D + I + M)`. -/
def mer {α : Type} [DecidableEq α] (R H : List α) : ℚ :=
  (totalOps (score R H) : ℚ) /
    ((totalOps (score R H) + (score R H).«matches» : Nat) : ℚ)

/-- Modelled from the spec: `CER` is the same formula as WER with the input
re-tokenized into individual characters — the identical generic algorithm
instantiated at the character token type, not a separate implementation. -/
def cer (r h : String) : ℚ :=
  wer r.data h.data

/-- The error condition of the scorer. -/
inductive InputError where
  | invalidInput
deriving DecidableEq, Repr

/-- Modelled from the spec: the scorer's failure contract — a malformed
input (a missing/null sequence, modelled as `none`) fails with an
`InvalidInput` condition surfaced to the caller; on every well-formed pair
of sequences the scorer is total and returns the score. -/
def scoreChecked {α : Type} [DecidableEq α] (r h : Option (List α)) :
    Except InputError ScoreResult :=
  match r, h with
  | some R, some H => Except.ok (score R H)
  | _, _ => Except.error InputError.invalidInput

/-! Edit scripts

An edit script is a sequence of match / substitution / deletion / insertion
operations; a script is an alignment of `(R, H)` when its reference side
spells `R` and its hypothesis side spells `H`.  Its cost counts the
non-match operations.  These are used to state that the DP total is minimal
over all edit scripts. -/

/-- One edit operation of an alignment: a match consumes the same token from
both sides, a substitution consumes one token from each side, a deletion
consumes a reference token, an insertion consumes a hypothesis token. -/
inductive EditOp (α : Type) where
  | mtch : α → EditOp α
  | subst : α → α → EditOp α
  | del : α → EditOp α
  | ins : α → EditOp α
deriving DecidableEq, Repr

/-- The reference-side token sequence consumed by an edit script. -/
def applyRef {α : Type} : List (EditOp α) → List α
  | [] => []
  | EditOp.mtch a :: s => a :: applyRef s
  | EditOp.subst a _ :: s => a :: applyRef s
  | EditOp.del a :: s => a :: applyRef s
  | EditOp.ins _ :: s => applyRef s

/-- The hypothesis-side token sequence produced by an edit script. -/
def applyHyp {α : Type} : List (EditOp α) → List α
  | [] => []
  | EditOp.mtch a :: s => a :: applyHyp s
  | EditOp.subst _ b :: s => b :: applyHyp s
  | EditOp.del _ :: s => applyHyp s
  | EditOp.ins b :: s => b :: applyHyp s

/-- The cost of an edit script: the number of non-match operations. -/
def cost {α : Type} : List (EditOp α) → Nat
  | [] => 0
  | EditOp.mtch _ :: s => cost s
  | _ :: s => cost s + 1

/-! The Vosk wrapper, from `src/benchmarkings/vosk_transcribe.py` -/

/-- The WAV header fields `transcribe_vosk` inspects: channel count, sample
width in bytes, and compression type. -/
structure WavHeader where
  nchannels : Nat
  sampwidth : Nat
  comptype : String
deriving DecidableEq, Repr

/-- Embeds `transcribe_vosk` from `src/benchmarkings/vosk_transcribe.py`.
The external Vosk recognizer is abstracted by its observable behaviour on
the frame chunks the loop reads: `chunks` holds, for each chunk, `some t`
when `AcceptWaveform` returned true with partial-result text `t` (the JSON
`text` field, defaulted to the empty string), `none` when it returned
false; `finalText` is the text of `FinalResult`.  The header check is
performed before anything else; on failure a `ValueError` is raised. -/
def transcribe_vosk (hdr : WavHeader) (chunks : List (Option String))
    (finalText : String) : Except String String :=
  if hdr.nchannels ≠ 1 ∨ hdr.sampwidth ≠ 2 ∨ hdr.comptype ≠ "NONE" then
    Except.error "Audio file must be WAV format PCM mono"
  else
    Except.ok (String.intercalate " " (chunks.filterMap id ++ [finalText]))

/-! Equations of the table and the backtracking pass -/

theorem dp_zero {α : Type} [DecidableEq α] (R H : List α) (j : Nat) :
    dp R H 0 j = j := rfl

theorem dp_succ_zero {α : Type} [DecidableEq α] (R H : List α) (i : Nat) :
    dp R H (i + 1) 0 = i + 1 := rfl

theorem dp_succ_succ {α : Type} [DecidableEq α] (R H : List α) (i j : Nat) :
    dp R H (i + 1) (j + 1) =
      if R[i]? = H[j]? then dp R H i j
      else min (dp R H i j + 1)
        (min (dp R H i (j + 1) + 1) (dp R H (i + 1) j + 1)) := rfl

theorem backtrack_zero {α : Type} [DecidableEq α] (R H : List α) (j : Nat) :
    backtrack R H 0 j = ⟨0, 0, j, 0⟩ := rfl

theorem backtrack_succ_zero {α : Type} [DecidableEq α] (R H : List α)
    (i : Nat) : backtrack R H (i + 1) 0 = ⟨0, i + 1, 0, 0⟩ := rfl

theorem backtrack_succ_succ {α : Type} [DecidableEq α] (R H : List α)
    (i j : Nat) :
    backtrack R H (i + 1) (j + 1) =
      if R[i]? = H[j]? then addMatch (backtrack R H i j)
      else if dp R H (i + 1) (j + 1) = dp R H i j + 1 then
        addSubst (backtrack R H i j)
      else if dp R H (i + 1) (j + 1) = dp R H i (j + 1) + 1 then
        addDel (backtrack R H i (j + 1))
      else addIns (btRow R H i (backtrack R H i) j) := rfl

/-! Structural lemmas about the backtracking pass -/

theorem backtrack_counts {α : Type} [DecidableEq α] (R H : List α) :
    ∀ n i j, i + j ≤ n →
      (backtrack R H i j).substitutions + (backtrack R H i j).deletions +
          (backtrack R H i j).«matches» = i ∧
        (backtrack R H i j).substitutions + (backtrack R H i j).insertions +
          (backtrack R H i j).«matches» = j := by
  intro n
  induction n with
  | zero =>
    intro i j h
    obtain ⟨rfl, rfl⟩ : i = 0 ∧ j = 0 := by omega
    simp [backtrack_zero]
  | succ n ih =>
    intro i j h
    match i, j with
    | 0, j => simp [backtrack_zero]
    | i + 1, 0 => simp [backtrack_succ_zero]
    | i + 1, j + 1 =>
      rw [backtrack_succ_succ]
      have h1 := ih i j (by omega)
      have h2 := ih i (j + 1) (by omega)
      have h3 := ih (i + 1) j (by omega)
      have hbt : btRow R H i (backtrack R H i) j = backtrack R H (i + 1) j := rfl
      rw [hbt]
      split_ifs with hEq hS hD
      · simp only [addMatch]
        exact ⟨by omega, by omega⟩
      · simp only [addSubst]
        exact ⟨by omega, by omega⟩
      · simp only [addDel]
        exact ⟨by omega, by omega⟩
      · simp only [addIns]
        exact ⟨by omega, by omega⟩

theorem totalOps_backtrack {α : Type} [DecidableEq α] (R H : List α) :
    ∀ n i j, i + j ≤ n → totalOps (backtrack R H i j) = dp R H i j := by
  intro n
  induction n with
  | zero =>
    intro i j h
    obtain ⟨rfl, rfl⟩ : i = 0 ∧ j = 0 := by omega
    simp [backtrack_zero, totalOps, dp_zero]
  | succ n ih =>
    intro i j h
    match i, j with
    | 0, j => simp [backtrack_zero, totalOps, dp_zero]
    | i + 1, 0 => simp [backtrack_succ_zero, totalOps, dp_succ_zero]
    | i + 1, j + 1 =>
      rw [backtrack_succ_succ]
      have h1 := ih i j (by omega)
      have h2 := ih i (j + 1) (by omega)
      have h3 := ih (i + 1) j (by omega)
      simp only [totalOps] at h1 h2 h3 ⊢
      have hbt : btRow R H i (backtrack R H i) j = backtrack R H (i + 1) j := rfl
      rw [hbt]
      have hd := dp_succ_succ R H i j
      split_ifs with hEq hS hD
      · rw [if_pos hEq] at hd
        simp only [addMatch]
        omega
      · simp only [addSubst]
        omega
      · simp only [addDel]
        omega
      · rw [if_neg hEq] at hd
        simp only [addIns]
        omega

theorem dp_le_add {α : Type} [DecidableEq α] (R H : List α) :
    ∀ n i j, i + j ≤ n → dp R H i j ≤ i + j := by
  intro n
  induction n with
  | zero =>
    intro i j h
    obtain ⟨rfl, rfl⟩ : i = 0 ∧ j = 0 := by omega
    simp [dp_zero]
  | succ n ih =>
    intro i j h
    match i, j with
    | 0, j => simp [dp_zero]
    | i + 1, 0 => simp [dp_succ_zero]
    | i + 1, j + 1 =>
      rw [dp_succ_succ]
      have h1 := ih i j (by omega)
      split_ifs with hEq
      · omega
      · omega

theorem dp_ge {α : Type} [DecidableEq α] (R H : List α) :
    ∀ n i j, i + j ≤ n → i ≤ dp R H i j + j ∧ j ≤ dp R H i j + i := by
  intro n
  induction n with
  | zero =>
    intro i j h
    obtain ⟨rfl, rfl⟩ : i = 0 ∧ j = 0 := by omega
    simp [dp_zero]
  | succ n ih =>
    intro i j h
    match i, j with
    | 0, j => simp [dp_zero]
    | i + 1, 0 => simp [dp_succ_zero]
    | i + 1, j + 1 =>
      rw [dp_succ_succ]
      have h1 := ih i j (by omega)
      have h2 := ih i (j + 1) (by omega)
      have h3 := ih (i + 1) j (by omega)
      split_ifs with hEq
      · omega
      · omega

theorem dp_lip {α : Type} [DecidableEq α] (R H : List α) :
    ∀ n i j, i + j ≤ n →
      dp R H (i + 1) j ≤ dp R H i j + 1 ∧
        dp R H i (j + 1) ≤ dp R H i j + 1 ∧
        dp R H i j ≤ dp R H (i + 1) j + 1 ∧
        dp R H i j ≤ dp R H i (j + 1) + 1 := by
  intro n
  induction n with
  | zero =>
    intro i j h
    obtain ⟨rfl, rfl⟩ : i = 0 ∧ j = 0 := by omega
    simp [dp_zero, dp_succ_zero]
  | succ n ih =>
    intro i j h
    match i, j with
    | 0, 0 => simp [dp_zero, dp_succ_zero]
    | 0, j + 1 =>
      have ub := dp_le_add R H (1 + (j + 1)) 1 (j + 1) (by omega)
      have lb := dp_ge R H (1 + (j + 1)) 1 (j + 1) (by omega)
      simp only [dp_zero]
      simp only [Nat.zero_add]
      omega
    | i + 1, 0 =>
      have ub := dp_le_add R H ((i + 1) + 1) (i + 1) 1 (by omega)
      have lb := dp_ge R H ((i + 1) + 1) (i + 1) 1 (by omega)
      simp only [dp_succ_zero]
      simp only [Nat.zero_add]
      omega
    | i + 1, j + 1 =>
      have e1 := dp_succ_succ R H (i + 1) j
      have e2 := dp_succ_succ R H i (j + 1)
      obtain ⟨a1, a2, a3, a4⟩ := ih (i + 1) j (by omega)
      obtain ⟨b1, b2, b3, b4⟩ := ih i (j + 1) (by omega)
      refine ⟨?_, ?_, ?_, ?_⟩
      · rw [e1]
        split_ifs with hc
        · omega
        · omega
      · rw [e2]
        split_ifs with hc
        · omega
        · omega
      · rw [e1]
        split_ifs with hc
        · omega
        · omega
      · rw [e2]
        split_ifs with hc
        · omega
        · omega

theorem backtrack_diag_self {α : Type} [DecidableEq α] (R : List α) :
    ∀ i, backtrack R R i i = ⟨0, 0, 0, i⟩ := by
  intro i
  induction i with
  | zero => rfl
  | succ i ih =>
    rw [backtrack_succ_succ, if_pos rfl, ih]
    rfl

theorem dp_comm {α : Type} [DecidableEq α] (R H : List α) :
    ∀ n i j, i + j ≤ n → dp R H i j = dp H R j i := by
  intro n
  induction n with
  | zero =>
    intro i j h
    obtain ⟨rfl, rfl⟩ : i = 0 ∧ j = 0 := by omega
    rfl
  | succ n ih =>
    intro i j h
    match i, j with
    | 0, j => cases j <;> rfl
    | i + 1, 0 => rfl
    | i + 1, j + 1 =>
      rw [dp_succ_succ R H i j, dp_succ_succ H R j i]
      have h1 := ih i j (by omega)
      have h2 := ih i (j + 1) (by omega)
      have h3 := ih (i + 1) j (by omega)
      by_cases hc : R[i]? = H[j]?
      · rw [if_pos hc, if_pos hc.symm, h1]
      · rw [if_neg hc, if_neg (fun hcc => hc hcc.symm), h1, h2, h3]
        omega

theorem applyRef_append {α : Type} (s t : List (EditOp α)) :
    applyRef (s ++ t) = applyRef s ++ applyRef t := by
  induction s with
  | nil => rfl
  | cons op s ih => cases op <;> simp [applyRef, ih]

theorem applyHyp_append {α : Type} (s t : List (EditOp α)) :
    applyHyp (s ++ t) = applyHyp s ++ applyHyp t := by
  induction s with
  | nil => rfl
  | cons op s ih => cases op <;> simp [applyHyp, ih]

theorem cost_append {α : Type} (s t : List (EditOp α)) :
    cost (s ++ t) = cost s + cost t := by
  induction s with
  | nil => simp [cost]
  | cons op s ih => cases op <;> simp [cost, ih] <;> omega

theorem take_snoc_ex {α : Type} (R l : List α) (a : α) (i : Nat)
    (hi : i ≤ R.length) (h : l ++ [a] = R.take i) :
    ∃ i₀, i = i₀ + 1 ∧ i₀ < R.length ∧ l = R.take i₀ ∧ R[i₀]? = some a := by
  have hlen : (R.take i).length = i := by rw [List.length_take]; omega
  have hlen2 : l.length + 1 = i := by
    have hc := congrArg List.length h
    simp only [List.length_append, List.length_singleton] at hc
    omega
  have hi₀ : l.length < R.length := by omega
  obtain ⟨b, hb⟩ : ∃ b, R[l.length]? = some b :=
    ⟨R.get ⟨l.length, hi₀⟩, by
      rw [List.getElem?_eq_getElem hi₀]
      rfl⟩
  rw [← hlen2] at h
  rw [List.take_succ, hb] at h
  simp only [Option.toList_some] at h
  have hinj := List.append_inj' h (by simp)
  obtain ⟨h1, h2⟩ := hinj
  simp only [List.cons.injEq, and_true] at h2
  exact ⟨l.length, by omega, hi₀, h1, by rw [hb, h2]⟩

theorem dp_le_cost {α : Type} [DecidableEq α] (R H : List α)
    (s : List (EditOp α)) :
    ∀ i j, i ≤ R.length → j ≤ H.length →
      applyRef s = R.take i → applyHyp s = H.take j → dp R H i j ≤ cost s := by
  induction s using List.reverseRecOn with
  | nil =>
    intro i j hi hj hr hh
    have hi0 : i = 0 := by
      rcases List.take_eq_nil_iff.mp hr.symm with h | h
      · exact h
      · rw [h] at hi
        simpa using hi
    have hj0 : j = 0 := by
      rcases List.take_eq_nil_iff.mp hh.symm with h | h
      · exact h
      · rw [h] at hj
        simpa using hj
    subst hi0
    subst hj0
    simp [dp_zero, cost]
  | append_singleton s op ih =>
    intro i j hi hj hr hh
    rw [applyRef_append] at hr
    rw [applyHyp_append] at hh
    cases op with
    | mtch a =>
      simp only [applyRef] at hr
      simp only [applyHyp] at hh
      obtain ⟨i₀, rfl, hi₀, hri, hgi⟩ := take_snoc_ex R _ a i hi hr
      obtain ⟨j₀, rfl, hj₀, hhj, hgj⟩ := take_snoc_ex H _ a j hj hh
      have hEq : R[i₀]? = H[j₀]? := by rw [hgi, hgj]
      rw [dp_succ_succ, if_pos hEq]
      have hih := ih i₀ j₀ (by omega) (by omega) hri hhj
      have hc : cost (s ++ [EditOp.mtch a]) = cost s := by
        rw [cost_append]
        simp [cost]
      omega
    | subst a b =>
      simp only [applyRef] at hr
      simp only [applyHyp] at hh
      obtain ⟨i₀, rfl, hi₀, hri, hgi⟩ := take_snoc_ex R _ a i hi hr
      obtain ⟨j₀, rfl, hj₀, hhj, hgj⟩ := take_snoc_ex H _ b j hj hh
      have hih := ih i₀ j₀ (by omega) (by omega) hri hhj
      have hc : cost (s ++ [EditOp.subst a b]) = cost s + 1 := by
        rw [cost_append]
        simp [cost]
      rw [dp_succ_succ]
      split_ifs with hEq
      · omega
      · omega
    | del a =>
      simp only [applyRef] at hr
      simp only [applyHyp, List.append_nil] at hh
      obtain ⟨i₀, rfl, hi₀, hri, hgi⟩ := take_snoc_ex R _ a i hi hr
      have hih := ih i₀ j (by omega) hj hri hh
      have hlip := (dp_lip R H (i₀ + j) i₀ j le_rfl).1
      have hc : cost (s ++ [EditOp.del a]) = cost s + 1 := by
        rw [cost_append]
        simp [cost]
      omega
    | ins b =>
      simp only [applyRef, List.append_nil] at hr
      simp only [applyHyp] at hh
      obtain ⟨j₀, rfl, hj₀, hhj, hgj⟩ := take_snoc_ex H _ b j hj hh
      have hih := ih i j₀ hi (by omega) hr hhj
      have hlip := (dp_lip R H (i + j₀) i j₀ le_rfl).2.1
      have hc : cost (s ++ [EditOp.ins b]) = cost s + 1 := by
        rw [cost_append]
        simp [cost]
      omega

theorem totalOps_score_eq_dp {α : Type} [DecidableEq α] (R H : List α) :
    totalOps (score R H) = dp R H R.length H.length :=
  totalOps_backtrack R H (R.length + H.length) R.length H.length le_rfl

theorem score_self {α : Type} [DecidableEq α] (R : List α) :
    score R R = ⟨0, 0, 0, R.length⟩ :=
  backtrack_diag_self R R.length

theorem wer_self {α : Type} [DecidableEq α] (R : List α) : wer R R = 0 := by
  rw [wer, score_self]
  by_cases h0 : R.length = 0
  · simp [h0]
  · simp [h0, totalOps]

/-! The claims -/

/-- Claim C1: for every reference token sequence `R` and hypothesis token sequence
`H`, the result of `score(R,H)` satisfies
`substitutions + deletions + matches = length R` and
`substitutions + insertions + matches = length H`. -/
theorem claim_score_count_invariants (R H : List String) :
    (score R H).substitutions + (score R H).deletions +
          (score R H).«matches» = R.length ∧
      (score R H).substitutions + (score R H).insertions +
          (score R H).«matches» = H.length :=
  backtrack_counts R H (R.length + H.length) R.length H.length le_rfl

/-- Claim C2: the total edit-operation count `S + D + I` reported by `score(R,H)`
equals the value `dp[n][m]` of the dynamic-programming table with base cases
`dp[0][j] = j`, `dp[i][0] = i` and the match/substitution/deletion/insertion
recurrence; and this total is minimal over all edit scripts transforming `R`
into `H`. -/
theorem claim_total_is_levenshtein (R H : List String) :
    totalOps (score R H) = dp R H R.length H.length ∧
      ∀ s : List (EditOp String), applyRef s = R → applyHyp s = H →
        totalOps (score R H) ≤ cost s := by
  refine ⟨totalOps_score_eq_dp R H, ?_⟩
  intro s hr hh
  rw [totalOps_score_eq_dp]
  refine dp_le_cost R H s R.length H.length le_rfl le_rfl ?_ ?_
  · rw [List.take_length]
    exact hr
  · rw [List.take_length]
    exact hh

theorem claim_total_is_levenshtein_witness :
    totalOps (score ["a", "b", "c"] ["a", "x", "c"]) =
        dp ["a", "b", "c"] ["a", "x", "c"] 3 3 ∧
      totalOps (score ["a", "b", "c"] ["a", "x", "c"]) ≤
        cost [EditOp.mtch "a", EditOp.subst "b" "x", EditOp.mtch "c"] :=
  ⟨(claim_total_is_levenshtein ["a", "b", "c"] ["a", "x", "c"]).1,
   (claim_total_is_levenshtein ["a", "b", "c"] ["a", "x", "c"]).2
      [EditOp.mtch "a", EditOp.subst "b" "x", EditOp.mtch "c"] rfl rfl⟩

/-- Claim C3: for every non-empty reference `R` and every hypothesis `H`,
`score(R,H)` yields `WER = (S + D + I) / n` and
`MER = (S + D + I) / (S + D + I + M)`; in particular for
`R = ["a","b","c"]`, `H = ["a","x","c"]` it yields 1 substitution,
0 insertions, 0 deletions, 2 matches, and `WER = 1/3`. -/
theorem claim_wer_mer_formulas (R H : List String) (h : 0 < R.length) :
    wer R H = (totalOps (score R H) : ℚ) / (R.length : ℚ) ∧
      mer R H = (totalOps (score R H) : ℚ) /
        ((totalOps (score R H) + (score R H).«matches» : Nat) : ℚ) ∧
      score ["a", "b", "c"] ["a", "x", "c"] = ⟨1, 0, 0, 2⟩ ∧
      wer ["a", "b", "c"] ["a", "x", "c"] = 1 / 3 := by
  refine ⟨?_, rfl, by decide, ?_⟩
  · have h0 : ¬R.length = 0 := by omega
    simp only [wer]
    rw [if_neg h0]
  · have hs : score ["a", "b", "c"] ["a", "x", "c"] = ⟨1, 0, 0, 2⟩ := by decide
    simp only [wer, hs, totalOps]
    norm_num

theorem claim_wer_mer_formulas_witness :
    0 < (["a", "b", "c"] : List String).length ∧
      wer ["a", "b", "c"] ["a", "x", "c"] = 1 / 3 :=
  ⟨by decide,
   (claim_wer_mer_formulas ["a", "b", "c"] ["a", "x", "c"] (by decide)).2.2.2⟩

/-- Claim C4: the empty-reference boundary is not an error: `score([], H)` succeeds
and the explicit policy yields `WER = m` when the hypothesis is non-empty and
`WER = 0` when both sequences are empty; in particular
`score([], ["a","b"])` gives `WER = 2` (two insertions) and `MER = 1`. -/
theorem claim_empty_reference_policy (H : List String) (h : H ≠ []) :
    wer ([] : List String) H = (H.length : ℚ) ∧
      scoreChecked (some ([] : List String)) (some H) =
        Except.ok (score [] H) ∧
      wer ([] : List String) ([] : List String) = 0 ∧
      score ([] : List String) ["a", "b"] = ⟨0, 0, 2, 0⟩ ∧
      wer ([] : List String) ["a", "b"] = 2 ∧
      mer ([] : List String) ["a", "b"] = 1 := by
  refine ⟨?_, rfl, rfl, by decide, ?_, ?_⟩
  · have hl : ¬H.length = 0 := fun hl => h (List.length_eq_zero.mp hl)
    simp only [wer, List.length_nil, if_true]
    rw [if_neg hl]
  · norm_num [wer]
  · have hs : score ([] : List String) ["a", "b"] = ⟨0, 0, 2, 0⟩ := by decide
    simp only [mer, hs, totalOps]
    norm_num

theorem claim_empty_reference_policy_witness :
    (["a", "b"] : List String) ≠ [] ∧
      wer ([] : List String) ["a", "b"] = ((["a", "b"] : List String).length : ℚ) :=
  ⟨by decide, (claim_empty_reference_policy ["a", "b"] (by decide)).1⟩

/-- Claim C5: for every token sequence `R`, `score(R,R)` returns 0 substitutions,
0 deletions, 0 insertions, `length R` matches, and `WER = 0`; in particular
for `R = H = ["she","had","your","dark","suit"]` the WER is `0`. -/
theorem claim_score_identity (R : List String) :
    score R R = ⟨0, 0, 0, R.length⟩ ∧ wer R R = 0 ∧
      wer ["she", "had", "your", "dark", "suit"]
        ["she", "had", "your", "dark", "suit"] = 0 :=
  ⟨score_self R, wer_self R, wer_self _⟩

/-- Claim C6: the total edit-operation count is symmetric:
`totalOps (score R H) = totalOps (score H R)` for all token sequences, even
though the individual S/D/I counts and WER need not be. -/
theorem claim_totalOps_symmetric (R H : List String) :
    totalOps (score R H) = totalOps (score H R) := by
  rw [totalOps_score_eq_dp, totalOps_score_eq_dp]
  exact dp_comm R H (R.length + H.length) R.length H.length le_rfl

/-- Claim C7: the scorer fails with `InvalidInput` exactly when an input sequence
is malformed (missing/null, modelled as `none`), and on every well-formed
pair — empty sequences included — it is total and returns the score. -/
theorem claim_invalid_input (r h : Option (List String)) :
    ((∃ e, scoreChecked r h = Except.error e) ↔ r = none ∨ h = none) ∧
      ∀ R H : List String,
        scoreChecked (some R) (some H) = Except.ok (score R H) := by
  constructor
  · constructor
    · intro he
      obtain ⟨e, he⟩ := he
      rcases r with _ | R
      · exact Or.inl rfl
      · rcases h with _ | H
        · exact Or.inr rfl
        · simp [scoreChecked] at he
    · intro hcase
      rcases hcase with rfl | rfl
      · rcases h with _ | H <;> exact ⟨InputError.invalidInput, rfl⟩
      · rcases r with _ | R <;> exact ⟨InputError.invalidInput, rfl⟩
  · intro R H
    rfl

theorem claim_invalid_input_witness :
    scoreChecked (none : Option (List String)) (some ["a"]) =
        Except.error InputError.invalidInput ∧
      scoreChecked (some ["a"]) (some ["a"]) = Except.ok (score ["a"] ["a"]) := by
  constructor
  · obtain ⟨e, he⟩ :=
      (claim_invalid_input (none : Option (List String)) (some ["a"])).1.mpr
        (Or.inl rfl)
    cases e
    exact he
  · exact (claim_invalid_input (some ["a"]) (some ["a"])).2 ["a"] ["a"]

/-- Claim C8: the CER of two strings is the same generic scoring function (and the
same WER formula) applied to the inputs re-tokenized into individual
characters — the word-level and character-level metrics are one function
instantiated at different token types. -/
theorem claim_cer_is_generic_score (r h : String) :
    cer r h = wer r.data h.data ∧
      cer r h = (if r.data.length = 0 then
          (if h.data.length = 0 then 0 else (h.data.length : ℚ))
        else (totalOps (score r.data h.data) : ℚ) / (r.data.length : ℚ)) ∧
      cer "abc" "axc" = 1 / 3 := by
  refine ⟨rfl, rfl, ?_⟩
  have hs : score "abc".data "axc".data = ⟨1, 0, 0, 2⟩ := by decide
  have h3 : "abc".data.length = 3 := by decide
  simp only [cer, wer, hs, totalOps, h3]
  norm_num

/-- Claim C9: `score` is a pure, deterministic function of its two inputs: any two
results of `score(R,H)` are identical, with identical S/D/I/M breakdowns. -/
theorem claim_score_deterministic (R H : List String) (r₁ r₂ : ScoreResult)
    (h₁ : r₁ = score R H) (h₂ : r₂ = score R H) :
    r₁ = r₂ ∧ r₁.substitutions = r₂.substitutions ∧
      r₁.deletions = r₂.deletions ∧ r₁.insertions = r₂.insertions ∧
      r₁.«matches» = r₂.«matches» := by
  subst h₁
  subst h₂
  exact ⟨rfl, rfl, rfl, rfl, rfl⟩

theorem claim_score_deterministic_witness :
    (⟨0, 0, 0, 1⟩ : ScoreResult) = ⟨0, 0, 0, 1⟩ ∧
      (⟨0, 0, 0, 1⟩ : ScoreResult).substitutions =
        (⟨0, 0, 0, 1⟩ : ScoreResult).substitutions ∧
      (⟨0, 0, 0, 1⟩ : ScoreResult).deletions =
        (⟨0, 0, 0, 1⟩ : ScoreResult).deletions ∧
      (⟨0, 0, 0, 1⟩ : ScoreResult).insertions =
        (⟨0, 0, 0, 1⟩ : ScoreResult).insertions ∧
      (⟨0, 0, 0, 1⟩ : ScoreResult).«matches» =
        (⟨0, 0, 0, 1⟩ : ScoreResult).«matches» :=
  claim_score_deterministic ["a"] ["a"] ⟨0, 0, 0, 1⟩ ⟨0, 0, 0, 1⟩
    (by decide) (by decide)

/-- Claim C10: `transcribe_vosk` raises a `ValueError` precisely when the WAV
header is not single-channel 16-bit uncompressed PCM (channels ≠ 1, sample
width ≠ 2 bytes, or compression type ≠ "NONE"); otherwise it returns the
space-joined concatenation of all accepted partial recognition results
followed by the final result. -/
theorem claim_transcribe_vosk_contract (hdr : WavHeader)
    (chunks : List (Option String)) (finalText : String) :
    ((∃ msg, transcribe_vosk hdr chunks finalText = Except.error msg) ↔
        ¬(hdr.nchannels = 1 ∧ hdr.sampwidth = 2 ∧ hdr.comptype = "NONE")) ∧
      (hdr.nchannels = 1 ∧ hdr.sampwidth = 2 ∧ hdr.comptype = "NONE" →
        transcribe_vosk hdr chunks finalText =
          Except.ok (String.intercalate " "
            (chunks.filterMap id ++ [finalText]))) := by
  constructor
  · constructor
    · rintro ⟨msg, hm⟩ ⟨h1, h2, h3⟩
      simp [transcribe_vosk, h1, h2, h3] at hm
    · intro hbad
      refine ⟨"Audio file must be WAV format PCM mono", ?_⟩
      have hcond : hdr.nchannels ≠ 1 ∨ hdr.sampwidth ≠ 2 ∨
          hdr.comptype ≠ "NONE" := by tauto
      simp only [transcribe_vosk]
      rw [if_pos hcond]
  · rintro ⟨h1, h2, h3⟩
    simp [transcribe_vosk, h1, h2, h3]

theorem claim_transcribe_vosk_contract_witness :
    (⟨1, 2, "NONE"⟩ : WavHeader).nchannels = 1 ∧
      transcribe_vosk ⟨1, 2, "NONE"⟩ [some "hello", none, some "world"]
          "done" = Except.ok "hello world done" := by
  refine ⟨rfl, ?_⟩
  have h := (claim_transcribe_vosk_contract ⟨1, 2, "NONE"⟩
      [some "hello", none, some "world"] "done").2 ⟨rfl, rfl, rfl⟩
  rw [h]
  rfl

end TalkToText
